import Mathlib

/-!
Verification of the mobx-keystone tree/tweak/action engine specification
against its source. Stateful TypeScript code is embedded as explicit state
passing; JavaScript object identity is embedded as numeric ids allocated
from a counter threaded through the state. Fallible operations return
`Except`/`Option`. Definitions marked "Modelled from the spec:" embed
repository behavior whose implementation file is not part of the provided
sources; everything else is translated directly from the source files.
-/

/-- Error taxonomy of the engine (spec section 7). -/
inductive KError where
  | hierarchyError
  | actionContextError
  | typeCheckError
  | patchError
  | referenceResolutionError
  | duplicateModelTypeError
  | duplicateIdError
deriving DecidableEq, Repr

/-- Association-list lookup: first entry with the given key. This embeds
JavaScript `Map.get` / object key access. -/
def alookup {κ α : Type} [DecidableEq κ] (k : κ) : List (κ × α) → Option α
  | [] => none
  | (k', v) :: rest => if k' = k then some v else alookup k rest

/-- Association-list set: overwrite the first entry with the given key, or
append a new entry at the end (JavaScript object property assignment keeps
key insertion order, appending new keys last). -/
def aset {κ α : Type} [DecidableEq κ] (k : κ) (v : α) : List (κ × α) → List (κ × α)
  | [] => [(k, v)]
  | (k', v') :: rest => if k' = k then (k', v) :: rest else (k', v') :: aset k v rest

/-- Association-list removal of the first entry with the given key
(JavaScript `delete obj[k]` / `Map.delete`). -/
def aremove {κ α : Type} [DecidableEq κ] (k : κ) : List (κ × α) → List (κ × α)
  | [] => []
  | (k', v') :: rest => if k' = k then rest else (k', v') :: aremove k rest

/-- Association-list in-place update of the value stored at a key
(mutating a field of an object held in a JavaScript map). -/
def aupdate {κ α : Type} [DecidableEq κ] (k : κ) (f : α → α) (l : List (κ × α)) :
    List (κ × α) :=
  l.map (fun p => if p.1 = k then (p.1, f p.2) else p)

/-- List insertion at an index (JavaScript `array.splice(i, 0, v)`). -/
def insertAt {α : Type} : List α → Nat → α → List α
  | l, 0, v => v :: l
  | [], _ + 1, v => [v]
  | x :: xs, i + 1, v => x :: insertAt xs i v

/-! ## Property transforms (source: `_timestampToDateTransform` in
`packages/site/src/mapsSetsDates.mdx`) -/

/-- A JavaScript `Date`-like value: its numeric timestamp, plus whether it
is an `ImmutableDate` instance (`transformedValue instanceof ImmutableDate`). -/
structure SDate where
  timestamp : Int
  immutable : Bool
deriving DecidableEq, Repr

/-- `new ImmutableDate(originalValue)`. -/
def immutableDate (t : Int) : SDate := ⟨t, true⟩

/-- The `transform` half of `_timestampToDateTransform`:
`cachedTransformedValue ?? new ImmutableDate(originalValue)`. -/
def timestampToDateTransform (originalValue : Int)
    (cachedTransformedValue : Option SDate) : SDate :=
  match cachedTransformedValue with
  | some d => d
  | none => immutableDate originalValue

/-- The `untransform` half of `_timestampToDateTransform`: returns
`+transformedValue` and, when the value is an `ImmutableDate`, also calls
`cacheTransformedValue()` (second component of the result). -/
def timestampToDateUntransform (transformedValue : SDate) : Int × Bool :=
  (transformedValue.timestamp, transformedValue.immutable)

/-! ## Tweaker (spec section 4.1; implementation not under src/) -/

/-- A candidate value handed to the tweaker: a primitive, or a reference to
a JavaScript object/array identified by its object id. -/
inductive TVal where
  | prim (n : Int)
  | objRef (id : Nat)
deriving DecidableEq, Repr

/-- Tweaker state: the set of object ids that are already tracked tree
nodes. -/
structure TwState where
  tracked : List Nat
deriving DecidableEq, Repr

/-- Modelled from the spec: `tweak` (tweaker implementation missing from
the provided sources). For primitives it returns the value unchanged; for
an object/array already wrapped it returns the existing node; otherwise it
wraps the object in place (same object id, now tracked) — it never copies. -/
def tweak : TVal → TwState → TVal × TwState
  | .prim n, s => (.prim n, s)
  | .objRef i, s =>
    if i ∈ s.tracked then (.objRef i, s)
    else (.objRef i, ⟨i :: s.tracked⟩)

/-! ## Action context enforcement (spec section 5; implementation not under src/) -/

/-- Observable state of a tracked node together with the currently active
action-context nesting depth (0 = no action context active). -/
structure AState where
  actionDepth : Nat
  props : List (String × Int)
deriving DecidableEq, Repr

/-- Modelled from the spec: a property mutation on a tracked node (action
pipeline implementation missing from the provided sources). Only code
running inside an active action context may mutate tracked nodes; a
mutation attempted outside an action context fails fast with
`ActionContextError`. -/
def setProp (k : String) (v : Int) (s : AState) : Except KError AState :=
  if s.actionDepth = 0 then .error .actionContextError
  else .ok ⟨s.actionDepth, aset k v s.props⟩

/-- Modelled from the spec: a property read; any code may read the tree, so
no action-context check is performed. -/
def getProp (k : String) (s : AState) : Option Int :=
  alookup k s.props

/-! ## Tree navigation / single-parent invariant (spec sections 3 and 4.1;
implementation not under src/) -/

/-- Modelled from the spec: the tweaker's insertion interceptor (tweaker
implementation missing from the provided sources). The parent index maps a
child node id to its current parent node id. Inserting a value validates
that it does not already belong to a different live parent and fails with
`HierarchyError` if so; otherwise the parent/position record is updated. -/
def insertInto (parent : Nat) (child : Nat) (parentIndex : List (Nat × Nat)) :
    Except KError (List (Nat × Nat)) :=
  match alookup child parentIndex with
  | some p => if p = parent then .ok parentIndex else .error .hierarchyError
  | none => .ok ((child, parent) :: parentIndex)

/-! ## Root store registry (source: `registerRootStore` / `unregisterRootStore` /
`isRootStore` in the rootStore module) -/

/-- A JavaScript value as classified by `isPlainObject` (the `utils` module
is not among the provided sources, so plain-object-ness is embedded as a
classification of the input): `undefined`, a plain object, or any other
value. -/
inductive JsValue where
  | undef
  | plainObj
  | nonPlainObj
deriving DecidableEq, Repr

/-- `isPlainObject(v)`: true exactly for plain objects. -/
def isPlainObject : JsValue → Bool
  | .plainObj => true
  | _ => false

/-- A model object as seen by the root-store module: its object id, whether
it is actually a model instance (`assertIsModel`), and its current parent
(`getParent`). -/
structure SModel where
  id : Nat
  isModel : Bool
  parent : Option Nat
deriving DecidableEq, Repr

/-- The `options` argument of `registerRootStore`: `env` is `none` when the
`env` key is absent and `some v` when present with value `v` (JavaScript
spread `{ env: {}, ...options }` lets an explicitly-present key override
the default even when its value is `undefined`). -/
structure RegisterOptions where
  env : Option JsValue
deriving DecidableEq, Repr

/-- The process-wide `rootStores` WeakMap, embedded as the list of
registered model object ids (the stored env object is irrelevant to the
claims and omitted). -/
structure RSState where
  rootStores : List Nat
deriving DecidableEq, Repr

/-- The `env` field of `{ env: {}, ...options }`. -/
def resolvedEnv : Option RegisterOptions → JsValue
  | none => .plainObj
  | some o =>
    match o.env with
    | none => .plainObj
    | some v => v

/-- `isRootStore(model)`: `rootStores.has(model)`. -/
def isRootStore (model : SModel) (s : RSState) : Bool :=
  decide (model.id ∈ s.rootStores)

/-- `registerRootStore(model, options)`: asserts the argument is a model,
throws if it is already marked as a root store, if it has a parent, or if
the resolved env is not a plain object; otherwise records it in
`rootStores` and returns the same model object. On a throw the registry is
returned unchanged. (`attachToRootStore` only fires hooks and is omitted.) -/
def registerRootStore (model : SModel) (options : Option RegisterOptions)
    (s : RSState) : Except String SModel × RSState :=
  if model.isModel = false then (.error "a root store must be a model", s)
  else if model.id ∈ s.rootStores then (.error "model already marked as root store", s)
  else if (model.parent).isSome then (.error "a root store must not have a parent", s)
  else if isPlainObject (resolvedEnv options) = false then
    (.error "env must be a plain object or undefined", s)
  else (.ok model, ⟨model.id :: s.rootStores⟩)

/-- `unregisterRootStore(model)`: throws if the model is not a root store,
otherwise deletes it from `rootStores`. (`detachFromRootStore` only fires
hooks and is omitted.) -/
def unregisterRootStore (model : SModel) (s : RSState) :
    Except String Unit × RSState :=
  if isRootStore model s = false then (.error "not a root store", s)
  else (.ok (), ⟨s.rootStores.filter (fun x => x ≠ model.id)⟩)

/-! ## Type checker engine (source: `typesDataModelData` and its
class-keyed cache `cachedDataModelTypeChecker`; `lateTypeChecker` and
`resolveTypeChecker` live in modules not among the provided sources and
are modelled from the spec) -/

/-- What a late type checker's zero-argument thunk computes when forced:
either `() => typesDataModelData(modelClassFn())` (the late-bound branch of
`typesDataModelData`) or `() => new TypeChecker(...)` (its direct branch). -/
inductive LateTarget where
  | dataModelDataOf (classId : Nat)
  | makeDataModelTC (classId : Nat)
deriving DecidableEq, Repr

/-- The per-instance state of a late type checker: its unevaluated thunk
and the per-descriptor-instance cache of the resolution result. -/
structure LateTC where
  target : LateTarget
  resolved : Option Nat
deriving DecidableEq, Repr

/-- Type-checker engine state. Descriptor object identity is embedded as a
numeric id drawn from `nextId`. `dmCache` is the `cachedDataModelTypeChecker`
WeakMap (model class id to descriptor id), `lateTCs` holds the live late
descriptors, `concreteTCs` the concrete `TypeChecker` objects (mapped to
the model class they check), and `thunkEvals` counts how many times any
late thunk has been forced. -/
structure TCState where
  nextId : Nat
  dmCache : List (Nat × Nat)
  lateTCs : List (Nat × LateTC)
  concreteTCs : List (Nat × Nat)
  thunkEvals : Nat
deriving DecidableEq, Repr

/-- Modelled from the spec: `lateTypeChecker` (its module is not among the
provided sources) creates a fresh late-bound descriptor object holding an
unevaluated zero-argument thunk and an empty per-instance resolution
cache. -/
def lateTypeChecker (tgt : LateTarget) (s : TCState) : Nat × TCState :=
  (s.nextId,
    { s with
      nextId := s.nextId + 1
      lateTCs := (s.nextId, ⟨tgt, none⟩) :: s.lateTCs })

/-- The argument of `typesDataModelData`: either the model class itself or
a zero-argument thunk `() => modelClass` (a function that is not a data
model class). -/
inductive TDMArg where
  | direct (classId : Nat)
  | viaThunk (classId : Nat)
deriving DecidableEq, Repr

/-- `typesDataModelData(modelClass)`: when given a function that is not a
data model class it immediately returns a fresh late type checker that
will resolve later via `() => typesDataModelData(modelClassFn())`; when
given the class itself it first consults `cachedDataModelTypeChecker`,
returning the cached descriptor if present, and otherwise creates the late
type checker for the model's data type, stores it in the cache and returns
it. -/
def typesDataModelData : TDMArg → TCState → Nat × TCState
  | .viaThunk c, s => lateTypeChecker (.dataModelDataOf c) s
  | .direct c, s =>
    match alookup c s.dmCache with
    | some tcId => (tcId, s)
    | none =>
      match lateTypeChecker (.makeDataModelTC c) s with
      | (tcId, s₁) => (tcId, { s₁ with dmCache := (c, tcId) :: s₁.dmCache })

/-- Modelled from the spec: forcing a late descriptor's thunk (the spec's
"zero-argument thunk" of a recursive/late-bound descriptor). Bumps the
evaluation counter, then either re-enters `typesDataModelData` on the
thunk's class or allocates the concrete `TypeChecker` object. -/
def forceThunk (tgt : LateTarget) (s : TCState) : Nat × TCState :=
  match tgt with
  | .dataModelDataOf c =>
    typesDataModelData (.direct c) { s with thunkEvals := s.thunkEvals + 1 }
  | .makeDataModelTC c =>
    (s.nextId,
      { s with
        thunkEvals := s.thunkEvals + 1
        nextId := s.nextId + 1
        concreteTCs := (s.nextId, c) :: s.concreteTCs })

/-- Modelled from the spec: `resolveTypeChecker` (its module is not among
the provided sources). A non-late descriptor resolves to itself; a late
descriptor returns its per-instance cached resolution when present and
otherwise forces its thunk once and stores the result in the instance's
cache. -/
def resolveTypeChecker (tcId : Nat) (s : TCState) : Nat × TCState :=
  match alookup tcId s.lateTCs with
  | none => (tcId, s)
  | some ltc =>
    match ltc.resolved with
    | some r => (r, s)
    | none =>
      match forceThunk ltc.target s with
      | (r, s₁) =>
        (r, { s₁ with
              lateTCs := aupdate tcId (fun l => { l with resolved := some r }) s₁.lateTCs })

/-- Well-formedness of the engine state: every live late descriptor id was
allocated below the id counter. -/
def wfTC (s : TCState) : Bool :=
  s.lateTCs.all (fun p => decide (p.1 < s.nextId))

/-! ## Snapshot engine (spec section 4.5; implementation not under src/) -/

/-- A snapshot value: a primitive, or an immutable snapshot object whose
JavaScript object identity is embedded as a numeric id. Two snapshots are
reference-equal exactly when they are equal as values of this type
(including ids). -/
inductive SnapVal where
  | prim (v : Int)
  | obj (id : Nat) (fields : List SnapVal)

mutual
/-- A live tree node: a primitive, or an object node carrying its
per-node memoized snapshot (`none` when stale/never computed) and its
children. -/
inductive TNode where
  | prim (v : Int)
  | obj (cache : Option SnapVal) (children : TNodeList)
/-- The children list of a live object node. -/
inductive TNodeList where
  | nil
  | cons (hd : TNode) (tl : TNodeList)
end

mutual
/-- Modelled from the spec: `getSnapshot(node)` (snapshot engine
implementation missing from the provided sources), memoized per node.
A cached snapshot is returned as-is (same object identity); otherwise the
children's snapshots are computed, a fresh snapshot object is allocated
(`c` is the object-id counter) and stored in the node's cache. Returns the
snapshot, the new id counter and the tree with updated caches. -/
def getSnapshot : TNode → Nat → SnapVal × Nat × TNode
  | .prim v, c => (.prim v, c, .prim v)
  | .obj (some sv) ch, c => (sv, c, .obj (some sv) ch)
  | .obj none ch, c =>
    match getSnapshotList ch c with
    | (svs, c', ch') =>
      (SnapVal.obj c' svs, c' + 1, .obj (some (SnapVal.obj c' svs)) ch')
/-- Snapshot computation over a children list, threading the id counter. -/
def getSnapshotList : TNodeList → Nat → List SnapVal × Nat × TNodeList
  | .nil, c => ([], c, .nil)
  | .cons t ts, c =>
    match getSnapshot t c with
    | (sv, c₁, t') =>
      match getSnapshotList ts c₁ with
      | (svs, c₂, ts') => (sv :: svs, c₂, .cons t' ts')
end

mutual
/-- Modelled from the spec: a primitive mutation of the live tree at a
child-index path, setting a primitive leaf. Every object node along the
path has its memoized snapshot invalidated (set to `none`), which is the
bottom-up invalidation propagation of spec section 4.5. -/
def mutateAt : TNode → List Nat → Int → Option TNode
  | .prim _, [], v => some (.prim v)
  | .obj _ ch, i :: rest, v =>
    (mutateChild ch i rest v).map (fun ch' => .obj none ch')
  | _, _, _ => none
/-- Mutation descent into the i-th child of a children list. -/
def mutateChild : TNodeList → Nat → List Nat → Int → Option TNodeList
  | .nil, _, _, _ => none
  | .cons t ts, 0, rest, v => (mutateAt t rest v).map (fun t' => .cons t' ts)
  | .cons t ts, i + 1, rest, v => (mutateChild ts i rest v).map (fun ts' => .cons t ts')
end

/-! ## Patch engine (spec section 4.6; implementation not under src/) -/

/-- A path segment: an object key or an array index. -/
inductive Seg where
  | key (k : String)
  | idx (i : Nat)
deriving DecidableEq, Repr

/-- A JSON-compatible value tree (the snapshot wire format of spec
section 6; in this model the live tree and its snapshot coincide
structurally, so a clone of the pre-action snapshot is the same `JVal`). -/
inductive JVal where
  | num (n : Int)
  | obj (fields : List (String × JVal))
  | arr (items : List JVal)

/-- A patch operation kind. -/
inductive POp where
  | add
  | remove
  | replace
deriving DecidableEq, Repr

/-- A patch record `{ op, path, value? }` with a root-relative path
(`oldValue` plays no role in replay and is omitted). -/
structure Patch where
  op : POp
  path : List Seg
  value : Option JVal

/-- Modelled from the spec: performing a patch's add/remove/replace on the
resolved parent container at the final path segment; fails with
`PatchError` on a container/segment mismatch, a missing target for
remove/replace, an out-of-range index, or a missing value for add/replace. -/
def applyOp (op : POp) (val : Option JVal) (last : Seg) (container : JVal) :
    Except KError JVal :=
  match container, last with
  | .obj fields, .key k =>
    match op, val with
    | .add, some v => .ok (.obj (aset k v fields))
    | .replace, some v =>
      if (alookup k fields).isSome then .ok (.obj (aset k v fields))
      else .error .patchError
    | .remove, _ =>
      if (alookup k fields).isSome then .ok (.obj (aremove k fields))
      else .error .patchError
    | _, _ => .error .patchError
  | .arr items, .idx i =>
    match op, val with
    | .add, some v =>
      if i ≤ items.length then .ok (.arr (insertAt items i v))
      else .error .patchError
    | .replace, some v =>
      if i < items.length then .ok (.arr (items.set i v)) else .error .patchError
    | .remove, _ =>
      if i < items.length then .ok (.arr (items.eraseIdx i)) else .error .patchError
    | _, _ => .error .patchError
  | _, _ => .error .patchError

/-- Modelled from the spec: resolving a patch path down to the parent
container and performing the operation there; fails with `PatchError` if an
intermediate path segment does not resolve to a container. -/
def navApply : List Seg → JVal → Seg → POp → Option JVal → Except KError JVal
  | [], t, last, op, val => applyOp op val last t
  | .key k :: rest, t, last, op, val =>
    match t with
    | .obj fields =>
      match alookup k fields with
      | some child =>
        (navApply rest child last op val).map (fun c' => .obj (aset k c' fields))
      | none => .error .patchError
    | _ => .error .patchError
  | .idx i :: rest, t, last, op, val =>
    match t with
    | .arr items =>
      match items[i]? with
      | some child =>
        (navApply rest child last op val).map (fun c' => .arr (items.set i c'))
      | none => .error .patchError
    | _ => .error .patchError

/-- Split a path into the path of the parent container and the final
segment; `none` for the empty path. -/
def splitLast : List Seg → Option (List Seg × Seg)
  | [] => none
  | [x] => some ([], x)
  | x :: xs => (splitLast xs).map (fun p => (x :: p.1, p.2))

/-- Modelled from the spec: applying one patch — resolve the path to the
parent container, then perform add/remove/replace; `PatchError` when the
path is empty or does not resolve. -/
def applyPatch (t : JVal) (p : Patch) : Except KError JVal :=
  match splitLast p.path with
  | none => .error .patchError
  | some pr => navApply pr.1 t pr.2 p.op p.value

/-- Descend to the container at a path in the live tree and rebuild the
tree around the transformed container; `f` performs the primitive mutation
on the container and produces the patch the interceptor emits for it. -/
def modifyAt (f : JVal → Option (JVal × Patch)) : List Seg → JVal → Option (JVal × Patch)
  | [], t => f t
  | .key k :: rest, t =>
    match t with
    | .obj fields =>
      match alookup k fields with
      | some child =>
        (modifyAt f rest child).map (fun r => (.obj (aset k r.1 fields), r.2))
      | none => none
    | _ => none
  | .idx i :: rest, t =>
    match t with
    | .arr items =>
      match items[i]? with
      | some child =>
        (modifyAt f rest child).map (fun r => (.arr (items.set i r.1), r.2))
      | none => none
    | _ => none

/-- A primitive mutation performed inside an action: set/delete a key of
the object at a path, or set/insert/delete an index of the array at a
path. -/
inductive Mut where
  | oset (path : List Seg) (k : String) (v : JVal)
  | odel (path : List Seg) (k : String)
  | aset (path : List Seg) (i : Nat) (v : JVal)
  | ains (path : List Seg) (i : Nat) (v : JVal)
  | adel (path : List Seg) (i : Nat)

/-- Modelled from the spec: run one intercepted primitive mutation on the
live tree and emit exactly one patch for it, whose path is the sequence of
keys/indices from the root to the mutated location. A key assignment emits
`replace` when the key already exists and `add` otherwise; a key deletion
only fires when the key exists and emits `remove`; array index set/insert/
delete emit `replace`/`add`/`remove`. -/
def runMutEmit (t : JVal) : Mut → Option (JVal × Patch)
  | .oset path k v =>
    modifyAt (fun c =>
      match c with
      | .obj fields =>
        some (.obj (aset k v fields),
          ⟨if (alookup k fields).isSome then .replace else .add,
            path ++ [.key k], some v⟩)
      | _ => none) path t
  | .odel path k =>
    modifyAt (fun c =>
      match c with
      | .obj fields =>
        if (alookup k fields).isSome then
          some (.obj (aremove k fields), ⟨.remove, path ++ [.key k], none⟩)
        else none
      | _ => none) path t
  | .aset path i v =>
    modifyAt (fun c =>
      match c with
      | .arr items =>
        if i < items.length then
          some (.arr (items.set i v), ⟨.replace, path ++ [.idx i], some v⟩)
        else none
      | _ => none) path t
  | .ains path i v =>
    modifyAt (fun c =>
      match c with
      | .arr items =>
        if i ≤ items.length then
          some (.arr (insertAt items i v), ⟨.add, path ++ [.idx i], some v⟩)
        else none
      | _ => none) path t
  | .adel path i =>
    modifyAt (fun c =>
      match c with
      | .arr items =>
        if i < items.length then
          some (.arr (items.eraseIdx i), ⟨.remove, path ++ [.idx i], none⟩)
        else none
      | _ => none) path t

/-- Modelled from the spec: run an action's ordered list of primitive
mutations on the live tree, recording the emitted patch sequence in
mutation order. -/
def runAction : JVal → List Mut → Option (JVal × List Patch)
  | t, [] => some (t, [])
  | t, m :: ms =>
    match runMutEmit t m with
    | none => none
    | some r =>
      match runAction r.1 ms with
      | none => none
      | some r₂ => some (r₂.1, r.2 :: r₂.2)

/-- Apply a recorded patch sequence in order. -/
def applyPatches : JVal → List Patch → Except KError JVal
  | t, [] => .ok t
  | t, p :: ps =>
    match applyPatch t p with
    | .error e => .error e
    | .ok t' => applyPatches t' ps

/-! ## Concrete type checker values (for the check callback of
`typesDataModelData`) -/

/-- A runtime type descriptor as consumed by a check callback: its
`unchecked` flag and its `check(value, path)` function returning a type
error message or null. -/
structure STypeChecker where
  unchecked : Bool
  check : JVal → List Seg → Option String

/-- Modelled from the spec: the `unchecked` descriptor — it always returns
no error (its module is not among the provided sources). -/
def uncheckedTypeChecker : STypeChecker :=
  ⟨true, fun _ _ => none⟩

/-- The check callback of the `TypeChecker` built by `typesDataModelData`
(source): with `resolvedTc` the result of `resolveTypeChecker(dataTypeChecker)`,
if `!resolvedTc.unchecked` return `resolvedTc.check(value, path)`, else
return null. -/
def dataModelDataCheck (resolvedTc : STypeChecker) (value : JVal)
    (path : List Seg) : Option String :=
  if resolvedTc.unchecked = false then resolvedTc.check value path else none

/-! ## Helper lemmas -/

theorem alookup_aupdate {κ α : Type} [DecidableEq κ] (k : κ) (f : α → α)
    (l : List (κ × α)) : alookup k (aupdate k f l) = (alookup k l).map f := by
  induction l with
  | nil => rfl
  | cons p rest ih =>
    simp only [aupdate, List.map_cons] at ih ⊢
    by_cases h : p.1 = k
    · rw [if_pos h]
      simp [alookup, h]
    · rw [if_neg h]
      simp only [alookup, h, if_false]
      exact ih

theorem alookup_all_lt {α : Type} (N : Nat) (k : Nat) (v : α) (l : List (Nat × α))
    (hall : l.all (fun p => decide (p.1 < N)) = true)
    (hk : alookup k l = some v) : k < N := by
  induction l with
  | nil => simp [alookup] at hk
  | cons p rest ih =>
    simp only [List.all_cons, Bool.and_eq_true, decide_eq_true_eq] at hall
    by_cases h : p.1 = k
    · exact h ▸ hall.1
    · simp only [alookup, h, if_false] at hk
      exact ih hall.2 hk

theorem alookup_none_not_key {κ α : Type} [DecidableEq κ] (k : κ) (l : List (κ × α))
    (h : alookup k l = none) : k ∉ l.map Prod.fst := by
  induction l with
  | nil => simp
  | cons p rest ih =>
    by_cases hp : p.1 = k
    · simp [alookup, hp] at h
    · simp only [alookup, hp, if_false] at h
      simp only [List.map_cons, List.mem_cons]
      rintro (rfl | hmem)
      · exact hp rfl
      · exact ih h hmem

/-! ## Claim C7 -/

/-- C7: the round-trip law for `timestampToDateTransform` — on the fresh
path `untransform(transform(x))` recovers `x` for every timestamp, and on
the cached path it recovers `x` whenever the cached `Date` is the one
associated with `x` (the cache contract of the transform). -/
theorem c7_transform_roundtrip (x : Int) :
    (timestampToDateUntransform (timestampToDateTransform x none)).1 = x ∧
    ∀ d : SDate, d.timestamp = x →
      (timestampToDateUntransform (timestampToDateTransform x (some d))).1 = x := by
  refine ⟨rfl, ?_⟩
  intro d hd
  simp [timestampToDateTransform, timestampToDateUntransform, hd]

/-- Witness for C7 at the spec's concrete input 1234. -/
theorem c7_transform_roundtrip_witness :
    (timestampToDateUntransform (timestampToDateTransform 1234 none)).1 = 1234 ∧
    (timestampToDateUntransform
      (timestampToDateTransform 1234 (some (immutableDate 1234)))).1 = 1234 :=
  ⟨(c7_transform_roundtrip 1234).1,
   (c7_transform_roundtrip 1234).2 (immutableDate 1234) rfl⟩

/-! ## Claim C8 -/

/-- C8: `tweak` is idempotent — re-tweaking the result of a tweak returns
the same node and leaves the state unchanged; primitives are returned
unchanged; an object that is already a tracked node is returned as the
existing node. -/
theorem c8_tweak_idempotent (v : TVal) (s : TwState) :
    tweak (tweak v s).1 (tweak v s).2 = tweak v s ∧
    (∀ n : Int, tweak (.prim n) s = (.prim n, s)) ∧
    (∀ i : Nat, i ∈ s.tracked → tweak (.objRef i) s = (.objRef i, s)) := by
  refine ⟨?_, fun n => rfl, fun i hi => by simp [tweak, hi]⟩
  cases v with
  | prim n => rfl
  | objRef i =>
    by_cases hi : i ∈ s.tracked
    · simp [tweak, hi]
    · simp [tweak, hi]

/-- Witness for C8 on a concrete already-tracked object. -/
theorem c8_tweak_idempotent_witness :
    tweak (tweak (.objRef 7) ⟨[7]⟩).1 (tweak (.objRef 7) ⟨[7]⟩).2 =
      tweak (.objRef 7) ⟨[7]⟩ ∧
    tweak (.objRef 7) ⟨[7]⟩ = (.objRef 7, ⟨[7]⟩) :=
  ⟨(c8_tweak_idempotent (.objRef 7) ⟨[7]⟩).1,
   (c8_tweak_idempotent (.objRef 7) ⟨[7]⟩).2.2 7 (by decide)⟩

/-! ## Claim C4 -/

/-- C4: a mutation of a tracked node's observable state attempted while no
action context is active fails fast with `ActionContextError`; reads do not
consult the action context at all; inside an active action context the
mutation succeeds. -/
theorem c4_mutation_needs_action_context (k : String) (v : Int) (s : AState) :
    (s.actionDepth = 0 → setProp k v s = .error .actionContextError) ∧
    (∀ d d' : Nat, ∀ props : List (String × Int),
      getProp k ⟨d, props⟩ = getProp k ⟨d', props⟩) ∧
    (s.actionDepth ≠ 0 → setProp k v s = .ok ⟨s.actionDepth, aset k v s.props⟩) :=
  ⟨fun h => by simp [setProp, h],
   fun _ _ _ => rfl,
   fun h => by simp [setProp, h]⟩

/-- Witness for C4: `todo.$.done = true` outside any action throws, while
the same write inside an action succeeds, and the read ignores the action
depth. -/
theorem c4_mutation_needs_action_context_witness :
    setProp "done" 1 ⟨0, [("done", 0)]⟩ = .error .actionContextError ∧
    getProp "done" ⟨0, [("done", 0)]⟩ = getProp "done" ⟨5, [("done", 0)]⟩ ∧
    setProp "done" 1 ⟨1, [("done", 0)]⟩ = .ok ⟨1, [("done", 1)]⟩ :=
  ⟨(c4_mutation_needs_action_context "done" 1 ⟨0, [("done", 0)]⟩).1 rfl,
   (c4_mutation_needs_action_context "done" 1 ⟨0, [("done", 0)]⟩).2.1 0 5 [("done", 0)],
   (c4_mutation_needs_action_context "done" 1 ⟨1, [("done", 0)]⟩).2.2 (by decide)⟩

/-! ## Claim C3 -/

/-- C3: inserting a node that currently has a live parent into any other
parent fails with `HierarchyError`, and a successful insertion preserves
the at-most-one-parent invariant (no duplicate child keys in the parent
index). -/
theorem c3_single_parent (parentIndex : List (Nat × Nat)) (n p q : Nat) :
    (alookup n parentIndex = some p → q ≠ p →
      insertInto q n parentIndex = .error .hierarchyError) ∧
    (∀ s' : List (Nat × Nat), (parentIndex.map Prod.fst).Nodup →
      insertInto q n parentIndex = .ok s' → (s'.map Prod.fst).Nodup) := by
  constructor
  · intro h hne
    have hpq : ¬p = q := fun hh => hne hh.symm
    simp [insertInto, h, hpq]
  · intro s' hnd hok
    cases hl : alookup n parentIndex with
    | some r =>
      simp only [insertInto, hl] at hok
      by_cases hr : r = q
      · rw [if_pos hr] at hok
        cases hok
        exact hnd
      · rw [if_neg hr] at hok
        cases hok
    | none =>
      simp only [insertInto, hl] at hok
      cases hok
      simp only [List.map_cons, List.nodup_cons]
      exact ⟨alookup_none_not_key n parentIndex hl, hnd⟩

/-- Witness for C3: node 5 already parented by node 1 cannot be inserted
into node 2; inserting the fresh node 6 keeps the index duplicate-free. -/
theorem c3_single_parent_witness :
    insertInto 2 5 [(5, 1)] = .error .hierarchyError ∧
    (([(6, 1), (5, 1)] : List (Nat × Nat)).map Prod.fst).Nodup :=
  ⟨(c3_single_parent [(5, 1)] 5 1 2).1 rfl (by decide),
   (c3_single_parent [(5, 1)] 6 1 1).2 [(6, 1), (5, 1)] (by decide) rfl⟩

/-! ## Claim C10 -/

/-- C10: `registerRootStore` throws when the model is already registered,
when it has a parent, or when the resolved env option is not a plain
object, leaving the registry unchanged in every failure case; on success
it returns the very same model and `isRootStore` becomes true; a
subsequent `unregisterRootStore` succeeds and makes `isRootStore` false
again, while `unregisterRootStore` on a non-root-store throws, leaving the
registry unchanged. -/
theorem c10_root_store_registry (m : SModel) (o : Option RegisterOptions)
    (s : RSState) :
    (m.isModel = true → isRootStore m s = true →
      registerRootStore m o s = (.error "model already marked as root store", s)) ∧
    (m.isModel = true → isRootStore m s = false → (m.parent).isSome = true →
      registerRootStore m o s = (.error "a root store must not have a parent", s)) ∧
    (m.isModel = true → isRootStore m s = false → m.parent = none →
      isPlainObject (resolvedEnv o) = false →
      registerRootStore m o s = (.error "env must be a plain object or undefined", s)) ∧
    (m.isModel = true → isRootStore m s = false → m.parent = none →
      isPlainObject (resolvedEnv o) = true →
      registerRootStore m o s = (.ok m, ⟨m.id :: s.rootStores⟩) ∧
      isRootStore m ⟨m.id :: s.rootStores⟩ = true) ∧
    (isRootStore m s = true →
      (unregisterRootStore m s).1 = .ok () ∧
      isRootStore m (unregisterRootStore m s).2 = false) ∧
    (isRootStore m s = false →
      unregisterRootStore m s = (.error "not a root store", s)) := by
  refine ⟨?_, ?_, ?_, ?_, ?_, ?_⟩
  · intro hm hreg
    simp only [isRootStore, decide_eq_true_eq] at hreg
    simp [registerRootStore, hm, hreg]
  · intro hm hreg hpar
    simp only [isRootStore, decide_eq_false_iff_not] at hreg
    simp [registerRootStore, hm, hreg, hpar]
  · intro hm hreg hpar henv
    simp only [isRootStore, decide_eq_false_iff_not] at hreg
    simp [registerRootStore, hm, hreg, hpar, henv]
  · intro hm hreg hpar henv
    simp only [isRootStore, decide_eq_false_iff_not] at hreg
    refine ⟨by simp [registerRootStore, hm, hreg, hpar, henv], ?_⟩
    simp [isRootStore]
  · intro hreg
    refine ⟨by simp [unregisterRootStore, hreg], ?_⟩
    simp only [unregisterRootStore, hreg]
    simp [isRootStore, List.mem_filter]
  · intro hreg
    simp [unregisterRootStore, hreg]

/-- Witness for C10: a concrete register / double-register / unregister /
bad-env / has-parent scenario. -/
theorem c10_root_store_registry_witness :
    registerRootStore ⟨1, true, none⟩ none ⟨[]⟩ = (.ok ⟨1, true, none⟩, ⟨[1]⟩) ∧
    isRootStore ⟨1, true, none⟩ ⟨[1]⟩ = true ∧
    registerRootStore ⟨1, true, none⟩ none ⟨[1]⟩ =
      (.error "model already marked as root store", ⟨[1]⟩) ∧
    registerRootStore ⟨2, true, some 9⟩ none ⟨[]⟩ =
      (.error "a root store must not have a parent", ⟨[]⟩) ∧
    registerRootStore ⟨3, true, none⟩ (some ⟨some .nonPlainObj⟩) ⟨[]⟩ =
      (.error "env must be a plain object or undefined", ⟨[]⟩) ∧
    (unregisterRootStore ⟨1, true, none⟩ ⟨[1]⟩).1 = .ok () ∧
    isRootStore ⟨1, true, none⟩ (unregisterRootStore ⟨1, true, none⟩ ⟨[1]⟩).2 = false ∧
    unregisterRootStore ⟨4, true, none⟩ ⟨[]⟩ = (.error "not a root store", ⟨[]⟩) :=
  ⟨((c10_root_store_registry ⟨1, true, none⟩ none ⟨[]⟩).2.2.2.1 rfl (by decide) rfl rfl).1,
   ((c10_root_store_registry ⟨1, true, none⟩ none ⟨[]⟩).2.2.2.1 rfl (by decide) rfl rfl).2,
   (c10_root_store_registry ⟨1, true, none⟩ none ⟨[1]⟩).1 rfl (by decide),
   (c10_root_store_registry ⟨2, true, some 9⟩ none ⟨[]⟩).2.1 rfl (by decide) rfl,
   (c10_root_store_registry ⟨3, true, none⟩ (some ⟨some .nonPlainObj⟩) ⟨[]⟩).2.2.1
     rfl (by decide) rfl rfl,
   ((c10_root_store_registry ⟨1, true, none⟩ none ⟨[1]⟩).2.2.2.2.1 (by decide)).1,
   ((c10_root_store_registry ⟨1, true, none⟩ none ⟨[1]⟩).2.2.2.2.1 (by decide)).2,
   (c10_root_store_registry ⟨4, true, none⟩ none ⟨[]⟩).2.2.2.2.2 (by decide)⟩

/-! ## Claim C9 -/

/-- C9: the `unchecked` descriptor never reports an error, and the check
callback built by `typesDataModelData` returns null for every value and
path whenever the resolved inner checker is unchecked. -/
theorem c9_unchecked_never_errors (v : JVal) (p : List Seg) :
    uncheckedTypeChecker.check v p = none ∧
    ∀ tc : STypeChecker, tc.unchecked = true → dataModelDataCheck tc v p = none := by
  refine ⟨rfl, ?_⟩
  intro tc htc
  simp [dataModelDataCheck, htc]

/-- Witness for C9 at a concrete value and path, with the unchecked
descriptor itself as the resolved inner checker. -/
theorem c9_unchecked_never_errors_witness :
    uncheckedTypeChecker.check (.num 0) [.key "x"] = none ∧
    dataModelDataCheck uncheckedTypeChecker (.num 0) [.key "x"] = none :=
  ⟨(c9_unchecked_never_errors (.num 0) [.key "x"]).1,
   (c9_unchecked_never_errors (.num 0) [.key "x"]).2 uncheckedTypeChecker rfl⟩

/-! ## Claim C5 -/

/-- C5 counterexample: two calls of `typesDataModelData` that pass the
model class via a late-bound zero-argument thunk return two distinct
descriptor instances (different object identities), refuting pointer
equality for thunk calls. -/
theorem c5_thunk_calls_not_cached :
    (typesDataModelData (.viaThunk 0)
        ((typesDataModelData (.viaThunk 0) ⟨0, [], [], [], 0⟩).2)).1 ≠
      (typesDataModelData (.viaThunk 0) ⟨0, [], [], [], 0⟩).1 := by
  decide

/-- C5 (amended): every call of `typesDataModelData` that passes the model
class itself returns the same descriptor instance (pointer-equal, via the
class-keyed cache) without touching the state again, while each call that
passes the class via a zero-argument thunk allocates a fresh late-bound
descriptor. -/
theorem c5_direct_calls_cached (c : Nat) (s : TCState) :
    typesDataModelData (.direct c) ((typesDataModelData (.direct c) s).2) =
      typesDataModelData (.direct c) s ∧
    (typesDataModelData (.viaThunk c) s).1 = s.nextId ∧
    ((typesDataModelData (.viaThunk c) s).2).nextId = s.nextId + 1 := by
  refine ⟨?_, rfl, rfl⟩
  cases h : alookup c s.dmCache with
  | some tcId => simp [typesDataModelData, h]
  | none => simp [typesDataModelData, lateTypeChecker, h, alookup]

/-! ## Claim C1 -/

/-- C1: if no mutation occurred in a node's subtree between two calls of
`getSnapshot`, the second call returns the very same snapshot object
(identical ids, hence reference-equal) and leaves the memoized tree and
the id counter unchanged. -/
theorem c1_snapshot_stable (t : TNode) (c : Nat) :
    getSnapshot (getSnapshot t c).2.2 (getSnapshot t c).2.1 = getSnapshot t c := by
  cases t with
  | prim v => rfl
  | obj cache ch =>
    cases cache with
    | some sv => rfl
    | none =>
      rcases h : getSnapshotList ch c with ⟨svs, c', ch'⟩
      simp [getSnapshot, h]

/-! ## Claim C6 -/

theorem typesDataModelData_thunkEvals (a : TDMArg) (s : TCState) :
    ((typesDataModelData a s).2).thunkEvals = s.thunkEvals := by
  cases a with
  | viaThunk c => rfl
  | direct c =>
    cases h : alookup c s.dmCache with
    | some tcId => simp [typesDataModelData, h]
    | none => simp [typesDataModelData, lateTypeChecker, h]

theorem forceThunk_thunkEvals (tgt : LateTarget) (s : TCState) :
    ((forceThunk tgt s).2).thunkEvals = s.thunkEvals + 1 := by
  cases tgt with
  | dataModelDataOf c =>
    simp [forceThunk, typesDataModelData_thunkEvals]
  | makeDataModelTC c => rfl

theorem forceThunk_lateTCs_lookup (tgt : LateTarget) (s : TCState) (tcId : Nat)
    (hlt : tcId < s.nextId) :
    alookup tcId ((forceThunk tgt s).2).lateTCs = alookup tcId s.lateTCs := by
  cases tgt with
  | makeDataModelTC c => rfl
  | dataModelDataOf c =>
    simp only [forceThunk, typesDataModelData]
    cases h : alookup c s.dmCache with
    | some tcId' => simp [h]
    | none =>
      simp only [h, lateTypeChecker, alookup]
      rw [if_neg (Nat.ne_of_lt hlt).symm]

/-- C6: a late-bound descriptor is created with its thunk unevaluated (the
thunk-evaluation counter does not move at creation), and resolution is
cached per descriptor instance: resolving a second time returns the very
same result and state as the first resolution (so the thunk is not
re-evaluated on a later check), and any resolution evaluates the thunk at
most once. -/
theorem c6_late_resolution (c : Nat) (s : TCState) :
    ((typesDataModelData (.viaThunk c) s).2).thunkEvals = s.thunkEvals ∧
    (∀ tcId : Nat, wfTC s = true →
      resolveTypeChecker tcId ((resolveTypeChecker tcId s).2) =
        resolveTypeChecker tcId s ∧
      ((resolveTypeChecker tcId s).2).thunkEvals ≤ s.thunkEvals + 1) := by
  refine ⟨rfl, ?_⟩
  intro tcId hwf
  cases h : alookup tcId s.lateTCs with
  | none =>
    constructor
    · simp [resolveTypeChecker, h]
    · simp [resolveTypeChecker, h]
  | some ltc =>
    cases hres : ltc.resolved with
    | some r =>
      constructor
      · simp [resolveTypeChecker, h, hres]
      · simp [resolveTypeChecker, h, hres]
    | none =>
      have hlt : tcId < s.nextId := alookup_all_lt s.nextId tcId ltc s.lateTCs hwf h
      rcases hfr : forceThunk ltc.target s with ⟨r, s₁⟩
      have hstep : resolveTypeChecker tcId s =
          (r, { s₁ with
                lateTCs :=
                  aupdate tcId (fun l => { l with resolved := some r }) s₁.lateTCs }) := by
        simp [resolveTypeChecker, h, hres, hfr]
      have hlook₁ : alookup tcId s₁.lateTCs = some ltc := by
        have := forceThunk_lateTCs_lookup ltc.target s tcId hlt
        rw [hfr] at this
        rw [this, h]
      have hlook₂ :
          alookup tcId
            (aupdate tcId (fun l => { l with resolved := some r }) s₁.lateTCs) =
            some { ltc with resolved := some r } := by
        rw [alookup_aupdate, hlook₁]
        rfl
      constructor
      · rw [hstep]
        simp [resolveTypeChecker, hlook₂]
      · rw [hstep]
        have : s₁.thunkEvals = s.thunkEvals + 1 := by
          have := forceThunk_thunkEvals ltc.target s
          rw [hfr] at this
          exact this
        simp [this]

/-- Witness for C6: the late descriptor created by a thunk call of
`typesDataModelData` resolves the same way twice from a concrete
well-formed state. -/
theorem c6_late_resolution_witness :
    ((typesDataModelData (.viaThunk 7) ⟨0, [], [], [], 0⟩).2).thunkEvals = 0 ∧
    resolveTypeChecker 0
        ((resolveTypeChecker 0 ⟨1, [], [(0, ⟨.dataModelDataOf 7, none⟩)], [], 0⟩).2) =
      resolveTypeChecker 0 ⟨1, [], [(0, ⟨.dataModelDataOf 7, none⟩)], [], 0⟩ ∧
    ((resolveTypeChecker 0 ⟨1, [], [(0, ⟨.dataModelDataOf 7, none⟩)], [], 0⟩).2).thunkEvals ≤ 1 :=
  ⟨(c6_late_resolution 7 ⟨0, [], [], [], 0⟩).1,
   ((c6_late_resolution 7 ⟨1, [], [(0, ⟨.dataModelDataOf 7, none⟩)], [], 0⟩).2 0 (by decide)).1,
   ((c6_late_resolution 7 ⟨1, [], [(0, ⟨.dataModelDataOf 7, none⟩)], [], 0⟩).2 0 (by decide)).2⟩

/-! ## Claim C2 -/

theorem splitLast_append (xs : List Seg) (x : Seg) :
    splitLast (xs ++ [x]) = some (xs, x) := by
  induction xs with
  | nil => rfl
  | cons a as ih =>
    cases has : as ++ [x] with
    | nil => exact absurd has (by simp)
    | cons w ws =>
      simp only [List.cons_append, has, splitLast]
      rw [← has, ih]
      rfl

theorem modifyAt_navApply (last : Seg) (P : List Seg)
    (f : JVal → Option (JVal × Patch))
    (hf : ∀ c c' q, f c = some (c', q) →
      q.path = P ∧ applyOp q.op q.value last c = .ok c') :
    ∀ (pp : List Seg) (t t' : JVal) (q : Patch),
      modifyAt f pp t = some (t', q) →
      q.path = P ∧ navApply pp t last q.op q.value = .ok t' := by
  intro pp
  induction pp with
  | nil =>
    intro t t' q h
    exact hf t t' q h
  | cons seg rest ih =>
    intro t t' q h
    cases seg with
    | key k =>
      cases t with
      | num n => simp [modifyAt] at h
      | arr items => simp [modifyAt] at h
      | obj fields =>
        simp only [modifyAt] at h
        cases hc : alookup k fields with
        | none => simp [hc] at h
        | some child =>
          simp only [hc] at h
          cases hm : modifyAt f rest child with
          | none => simp [hm] at h
          | some r =>
            simp only [hm, Option.map_some', Option.some.injEq, Prod.mk.injEq] at h
            obtain ⟨rfl, rfl⟩ := h
            have hih := ih child r.1 r.2 hm
            refine ⟨hih.1, ?_⟩
            simp [navApply, hc, hih.2, Except.map]
    | idx i =>
      cases t with
      | num n => simp [modifyAt] at h
      | obj fields => simp [modifyAt] at h
      | arr items =>
        simp only [modifyAt] at h
        cases hc : items[i]? with
        | none => simp [hc] at h
        | some child =>
          simp only [hc] at h
          cases hm : modifyAt f rest child with
          | none => simp [hm] at h
          | some r =>
            simp only [hm, Option.map_some', Option.some.injEq, Prod.mk.injEq] at h
            obtain ⟨rfl, rfl⟩ := h
            have hih := ih child r.1 r.2 hm
            refine ⟨hih.1, ?_⟩
            simp [navApply, hc, hih.2, Except.map]

theorem runMutEmit_applyPatch (t : JVal) (m : Mut) (t' : JVal) (q : Patch)
    (h : runMutEmit t m = some (t', q)) : applyPatch t q = .ok t' := by
  cases m with
  | oset path k v =>
    have hmn := modifyAt_navApply (.key k) (path ++ [.key k]) _ ?_ path t t' q h
    · rw [applyPatch, hmn.1, splitLast_append]
      exact hmn.2
    · intro c c' q' hfc
      cases c with
      | num n => simp at hfc
      | arr items => simp at hfc
      | obj fields =>
        simp only [Option.some.injEq, Prod.mk.injEq] at hfc
        obtain ⟨rfl, rfl⟩ := hfc
        refine ⟨rfl, ?_⟩
        cases hs : (alookup k fields).isSome with
        | true => simp [applyOp, hs]
        | false => simp [applyOp, hs]
  | odel path k =>
    have hmn := modifyAt_navApply (.key k) (path ++ [.key k]) _ ?_ path t t' q h
    · rw [applyPatch, hmn.1, splitLast_append]
      exact hmn.2
    · intro c c' q' hfc
      cases c with
      | num n => simp at hfc
      | arr items => simp at hfc
      | obj fields =>
        cases hs : (alookup k fields).isSome with
        | false => simp [hs] at hfc
        | true =>
          simp only [hs, if_true, Option.some.injEq, Prod.mk.injEq] at hfc
          obtain ⟨rfl, rfl⟩ := hfc
          exact ⟨rfl, by simp [applyOp, hs]⟩
  | aset path i v =>
    have hmn := modifyAt_navApply (.idx i) (path ++ [.idx i]) _ ?_ path t t' q h
    · rw [applyPatch, hmn.1, splitLast_append]
      exact hmn.2
    · intro c c' q' hfc
      cases c with
      | num n => simp at hfc
      | obj fields => simp at hfc
      | arr items =>
        by_cases hs : i < items.length
        · simp only [hs, if_true, Option.some.injEq, Prod.mk.injEq] at hfc
          obtain ⟨rfl, rfl⟩ := hfc
          exact ⟨rfl, by simp [applyOp, hs]⟩
        · simp [hs] at hfc
  | ains path i v =>
    have hmn := modifyAt_navApply (.idx i) (path ++ [.idx i]) _ ?_ path t t' q h
    · rw [applyPatch, hmn.1, splitLast_append]
      exact hmn.2
    · intro c c' q' hfc
      cases c with
      | num n => simp at hfc
      | obj fields => simp at hfc
      | arr items =>
        by_cases hs : i ≤ items.length
        · simp only [hs, if_true, Option.some.injEq, Prod.mk.injEq] at hfc
          obtain ⟨rfl, rfl⟩ := hfc
          exact ⟨rfl, by simp [applyOp, hs]⟩
        · simp [hs] at hfc
  | adel path i =>
    have hmn := modifyAt_navApply (.idx i) (path ++ [.idx i]) _ ?_ path t t' q h
    · rw [applyPatch, hmn.1, splitLast_append]
      exact hmn.2
    · intro c c' q' hfc
      cases c with
      | num n => simp at hfc
      | obj fields => simp at hfc
      | arr items =>
        by_cases hs : i < items.length
        · simp only [hs, if_true, Option.some.injEq, Prod.mk.injEq] at hfc
          obtain ⟨rfl, rfl⟩ := hfc
          exact ⟨rfl, by simp [applyOp, hs]⟩
        · simp [hs] at hfc

/-- C2: applying the patch sequence recorded during an action, in recorded
order, to a clone of the pre-action snapshot (in this model the live tree
and its snapshot coincide, and a clone is the equal value) reproduces the
post-action snapshot exactly. -/
theorem c2_patch_replay (ms : List Mut) (t t' : JVal) (ps : List Patch)
    (h : runAction t ms = some (t', ps)) : applyPatches t ps = .ok t' := by
  induction ms generalizing t t' ps with
  | nil =>
    simp only [runAction, Option.some.injEq, Prod.mk.injEq] at h
    obtain ⟨rfl, rfl⟩ := h
    rfl
  | cons m rest ih =>
    simp only [runAction] at h
    cases hm : runMutEmit t m with
    | none => simp [hm] at h
    | some r =>
      simp only [hm] at h
      cases ha : runAction r.1 rest with
      | none => simp [ha] at h
      | some r₂ =>
        simp only [ha, Option.some.injEq, Prod.mk.injEq] at h
        obtain ⟨rfl, rfl⟩ := h
        have h₁ : applyPatch t r.2 = .ok r.1 :=
          runMutEmit_applyPatch t m r.1 r.2 (by rw [hm])
        have h₂ : applyPatches r.1 r₂.2 = .ok r₂.1 := ih r.1 r₂.1 r₂.2 (by rw [ha])
        simp [applyPatches, h₁, h₂]

/-- The pre-action tree of the C2 witness. -/
def c2ExStart : JVal := .obj [("a", .num 1)]

/-- The C2 witness action: overwrite key "a", then add key "b". -/
def c2ExMuts : List Mut := [.oset [] "a" (.num 5), .oset [] "b" (.num 2)]

/-- The post-action tree of the C2 witness. -/
def c2ExEnd : JVal := .obj [("a", .num 5), ("b", .num 2)]

/-- The patch sequence the C2 witness action records. -/
def c2ExPatches : List Patch :=
  [⟨.replace, [.key "a"], some (.num 5)⟩, ⟨.add, [.key "b"], some (.num 2)⟩]

/-- Witness for C2 on a concrete action: the recorded patches replayed on
the pre-action tree give the post-action tree. -/
theorem c2_patch_replay_witness :
    runAction c2ExStart c2ExMuts = some (c2ExEnd, c2ExPatches) ∧
    applyPatches c2ExStart c2ExPatches = .ok c2ExEnd :=
  ⟨rfl, c2_patch_replay c2ExMuts c2ExStart c2ExEnd c2ExPatches rfl⟩
